import Mathlib

/-!
Shallow embedding of `src/accelerate/big_modeling.py` (the dispatch and
offload orchestration subsystem) and proofs about it.

Modelling conventions:
* A torch device is the inductive `Device`; `Device.disk` is the pseudo-device
  accepted in device maps, `Device.meta` the symbolic/no-storage placeholder,
  `Device.acc n` an accelerator (`cuda:n`, `npu:n`, ...; the source's int ->
  `"npu:n"` string normalization is a representation detail with no semantic
  content and is not modelled separately), `Device.mps` the Apple accelerator.
* A Python `dict` built by insertion is an association list in insertion
  order; lookup is `dlookup`, which returns the value of the *last* binding of
  a key (later insertion wins, as in a Python dict).
* External collaborators imported from `.hooks` / `.utils` (hook attachment,
  `find_tied_parameters`, `retie_parameters`, `offload_state_dict`,
  availability probes, `re.search`, ...) are modelled as opaque inputs:
  availability probes as the `Env` record, tie discovery as the `tied_params`
  argument, data pointers as the `data_ptr` field of `PModel`, regex search as
  the `pat_match` function of `CastCfg`.  Side effects of `dispatch_model`
  (persisting a disk index, attaching hooks, retying, wrapping methods) are
  recorded as an ordered `Event` trace.
-/

set_option autoImplicit false

/-- A torch device (plus the `"disk"` pseudo-device accepted in device maps
and the `"meta"` symbolic placeholder). -/
inductive Device where
  | meta : Device
  | cpu : Device
  | disk : Device
  | mps : Device
  | acc : Nat → Device
deriving DecidableEq, Repr

/-- Python-dict lookup on an insertion-ordered association list: the value of
the last binding of `k` (later assignment wins). -/
def dlookup {κ α : Type} [BEq κ] (l : List (κ × α)) (k : κ) : Option α :=
  l.reverse.lookup k

/-- Python-dict insertion: overwrite in place if the key is present (keeping
its position), otherwise append. -/
def dinsert {κ α : Type} [BEq κ] (l : List (κ × α)) (k : κ) (v : α) :
    List (κ × α) :=
  if l.any (fun p => p.1 == k) then
    l.map (fun p => if p.1 == k then (k, v) else p)
  else
    l ++ [(k, v)]

/-- The model state visible to `big_modeling.py`: named parameters and buffers
with their current device, the quantization attributes read by
`dispatch_model` via `getattr` (with the source's defaults), and the
`data_ptr()` of the tensor reached by `recursive_getattr` for each name. -/
structure PModel where
  params : List (String × Device)
  buffers : List (String × Device)
  quantization_method : String := "bitsandbytes"
  is_loaded_in_8bit : Bool := false
  is_loaded_in_4bit : Bool := false
  data_ptr : String → Nat := fun _ => 0

/-- Platform availability probes and filesystem facts consulted by
`dispatch_model` (external collaborators). -/
structure Env where
  npu : Bool := false
  mlu : Bool := false
  sdaa : Bool := false
  musa : Bool := false
  xpu : Bool := false
  bnb_ge_0_43_2 : Bool := false
  offload_dir_has_index : Bool := false
deriving DecidableEq, Repr

/-- The tier values of a device map, in iteration order
(`device_map.values()`). -/
def dev_values (dm : List (String × Device)) : List Device :=
  dm.map (fun p => p.2)

/-- Python set equality `set(vals) == set(s)` between a value list and a
finite set given as a list. -/
def set_eq (vals s : List Device) : Bool :=
  vals.all (fun v => s.contains v) && s.all (fun v => vals.contains v)

/-- `main_device` selection of `dispatch_model` when the caller passed none
(big_modeling.py lines 370-374).  `none` models the uncaught `IndexError` of
`[...][0]` on an empty candidate list. -/
def select_main_device (dm : List (String × Device)) : Option Device :=
  if set_eq (dev_values dm) [Device.cpu] ||
      set_eq (dev_values dm) [Device.cpu, Device.disk] then
    some Device.cpu
  else
    ((dev_values dm).filter
      (fun d => !(d == Device.cpu || d == Device.disk))).head?

/-- The main device actually used on the hook path: the caller's override if
supplied, otherwise `select_main_device`. -/
def resolve_main_device (main_arg : Option Device)
    (dm : List (String × Device)) : Option Device :=
  match main_arg with
  | some d => some d
  | none => select_main_device dm

/-- The value expression of the `execution_device` comprehension (line 396):
`main_device if device in ["cpu", "disk"] else device`. -/
def exec_transform (main d : Device) : Device :=
  if d == Device.cpu || d == Device.disk then main else d

/-- The `execution_device` dict of `dispatch_model` (lines 395-398): the
comprehension over the device map followed by the unconditional root
assignment `execution_device[""] = main_device`. -/
def execution_device (main : Device) (dm : List (String × Device)) :
    List (String × Device) :=
  dm.map (fun p => (p.1, exec_transform main p.2)) ++ [("", main)]

/-- The `offloaded_devices` list of line 399: only `"disk"` when the main
device is `"cpu"` or `"mps"`, otherwise `["cpu", "disk"]`. -/
def offloaded_devices (main : Device) : List Device :=
  if main == Device.cpu || main == Device.mps then [Device.disk]
  else [Device.cpu, Device.disk]

/-- The `offload` flag dict of line 400: per module path, whether its mapped
device is in `offloaded_devices`. -/
def offload_flags (main : Device) (dm : List (String × Device)) :
    List (String × Bool) :=
  dm.map (fun p => (p.1, (offloaded_devices main).contains p.2))

/-- The module paths mapped to `"disk"` (line 381). -/
def disk_modules (dm : List (String × Device)) : List String :=
  (dm.filter (fun p => p.2 == Device.disk)).map (fun p => p.1)

/-- Per-device cache slot of the tied-parameter map: a list of
(device, materialized-tensor-id) pairs, empty when freshly allocated. -/
abbrev CacheSlot := List (Device × Nat)

/-- The `tied_params_map` construction of lines 415-421: for every group and
every name in it, insert `data_ptr(name) -> {}` into the dict. -/
def tied_params_map (data_ptr : String → Nat)
    (tied_params : List (List String)) : List (Nat × CacheSlot) :=
  tied_params.foldl
    (fun m g => g.foldl (fun m n => dinsert m (data_ptr n) []) m) []

/-- Whether the bitsandbytes quantization check of lines 358-363 forces
hooks. -/
def quant_forces_hooks (env : Env) (m : PModel) : Bool :=
  m.quantization_method == "bitsandbytes" &&
    (m.is_loaded_in_8bit || (m.is_loaded_in_4bit && !env.bnb_ge_0_43_2))

/-- The accelerator-specific transfer method wrapped by the elif chain of
lines 469-480 (`npu`/`mlu`/`sdaa`/`musa`/`xpu`, else `cuda`). -/
def accel_method (env : Env) : String :=
  if env.npu then "npu"
  else if env.mlu then "mlu"
  else if env.sdaa then "sdaa"
  else if env.musa then "musa"
  else if env.xpu then "xpu"
  else "cuda"

/-- `model.to(device)` / `model.cuda()` and friends: every concretely placed
parameter and buffer is moved to the target device; a tensor on the symbolic
`meta` placeholder has no storage to copy and stays on `meta`. -/
def model_to (d : Device) (m : PModel) : PModel :=
  { m with
    params := m.params.map
      (fun p => (p.1, if p.2 == Device.meta then Device.meta else d)),
    buffers := m.buffers.map
      (fun p => (p.1, if p.2 == Device.meta then Device.meta else d)) }

/-- Ordered side effects of `dispatch_model`'s hook path. -/
inductive Event where
  | persistDiskState : List String → Event
  | attachHooks : Event
  | retie : List (List String) → Event
  | wrapMethods : List String → Event
deriving DecidableEq, Repr

/-- Errors raised by `dispatch_model`. -/
inductive DispatchError where
  /-- The `ValueError` of lines 383-386, carrying the disk-bound module
  paths named in its message. -/
  | needOffloadDir : List String → DispatchError
  /-- The `ValueError` of lines 521-523 directing the caller to
  `disk_offload`. -/
  | wholeModelToDisk : DispatchError
  /-- The uncaught `IndexError` of `[...][0]` on an empty list. -/
  | indexError : DispatchError
deriving DecidableEq, Repr

/-- What a successful `dispatch_model` call produced. -/
structure DispatchOutcome where
  /-- Ordered trace of side effects (empty on the fast path: no hooks). -/
  events : List Event
  /-- The model with its post-call parameter/buffer placement. -/
  model : PModel
  /-- The resolved main device (hook path only). -/
  main_device : Option Device
  /-- The `execution_device` dict (hook path only). -/
  exec_device : List (String × Device)
  /-- The `offload` flag dict (hook path only). -/
  offload : List (String × Bool)
  /-- The `tied_params_map` dict (hook path only). -/
  tied_map : List (Nat × CacheSlot)
  /-- The transfer methods wrapped with `add_warning` (hook path only). -/
  wrapped : List String
  /-- `model.hf_device_map` as recorded on line 525. -/
  hf_device_map : List (String × Device)

/-- Shallow embedding of `dispatch_model` (big_modeling.py lines 309-526).
`tied_params` stands for the result of the external `find_tied_parameters`;
`offload_index` is abstracted to its presence, the only thing the modelled
control flow consults. -/
def dispatch_model (env : Env) (m : PModel) (dm : List (String × Device))
    (main_arg : Option Device) (offload_dir : Option String)
    (offload_index : Option Unit) (force_hooks : Bool)
    (tied_params : List (List String)) :
    Except DispatchError DispatchOutcome :=
  let fh := force_hooks || quant_forces_hooks env m
  if (dev_values dm).dedup.length > 1 || fh then
    match resolve_main_device main_arg dm with
    | none => .error .indexError
    | some main =>
      let dms := disk_modules dm
      if offload_dir.isNone && offload_index.isNone && dms.length > 0 then
        .error (.needOffloadDir dms)
      else
        let persist :=
          dms.length > 0 && offload_index.isNone && !env.offload_dir_has_index
        let wrapped := ["to", accel_method env]
        .ok {
          events := (if persist then [Event.persistDiskState dms] else []) ++
            [Event.attachHooks, Event.retie tied_params,
              Event.wrapMethods wrapped]
          model := m
          main_device := some main
          exec_device := execution_device main dm
          offload := offload_flags main dm
          tied_map := tied_params_map m.data_ptr tied_params
          wrapped := wrapped
          hf_device_map := dm }
  else
    match (dev_values dm).head? with
    | none => .error .indexError
    | some device =>
      if device == Device.disk then
        .error .wholeModelToDisk
      else
        let hasMeta := m.params.any (fun p => p.2 == Device.meta)
        let m' :=
          if hasMeta then
            { m with
              params := m.params.map
                (fun p => if p.2 == Device.meta then (p.1, device) else p),
              buffers := m.buffers.map
                (fun p => if p.2 == Device.meta then (p.1, device) else p) }
          else
            model_to device m
        .ok {
          events := []
          model := m'
          main_device := none
          exec_device := []
          offload := []
          tied_map := []
          wrapped := []
          hf_device_map := dm }

/-- Projection helpers for stating closed facts about dispatch results. -/
def events_of (r : Except DispatchError DispatchOutcome) :
    Option (List Event) :=
  r.toOption.map (fun o => o.events)

/-- The parameter placement of a dispatch result. -/
def params_of (r : Except DispatchError DispatchOutcome) :
    Option (List (String × Device)) :=
  r.toOption.map (fun o => o.model.params)

/-- The offload flag of one module path in a dispatch result. -/
def offload_of (r : Except DispatchError DispatchOutcome) (n : String) :
    Option (Option Bool) :=
  r.toOption.map (fun o => dlookup o.offload n)

/-- The recorded device-map tier of one module path in a dispatch result. -/
def hf_tier_of (r : Except DispatchError DispatchOutcome) (n : String) :
    Option (Option Device) :=
  r.toOption.map (fun o => dlookup o.hf_device_map n)

/-- A concrete one-parameter model used by witnesses. -/
def m0 : PModel := { params := [("w", Device.acc 0)], buffers := [] }

/-- The warning message of `add_warning` (line 453). -/
def warn_msg : String :=
  "You shouldn't move a model that is dispatched using accelerate hooks."

/-- The `RuntimeError` raised by the `add_warning` wrapper when some
parameter is on the `meta` placeholder (line 462). -/
inductive MoveError where
  | metaParamsPresent : MoveError
deriving DecidableEq, Repr

/-- The `add_warning` wrapper of lines 450-465 around a whole-model transfer
method `fn`.  `is_to` says whether the wrapped method is `to`; `to_device` is
the device parsed by `torch._C._nn._parse_to` from the call's arguments
(`none` for a dtype-only `to` call).  Returns the warnings logged and either
the moved model or the `RuntimeError`. -/
def add_warning (is_to : Bool) (to_device : Option Device)
    (fn : PModel → PModel) (m : PModel) :
    List String × Except MoveError PModel :=
  let warns :=
    if is_to then (if to_device.isSome then [warn_msg] else []) else [warn_msg]
  if m.params.any (fun p => p.2 == Device.meta) then
    (warns, .error .metaParamsPresent)
  else
    (warns, .ok (fn m))

/-- The `StopIteration` escaping from `next(iter(model.parameters()))` when
the model has no parameter. -/
inductive OffloadCallError where
  | stopIteration : OffloadCallError
deriving DecidableEq, Repr

/-- The execution-device resolution of `cpu_offload` (lines 201-202): the
caller's device if given, else the device of the model's first parameter;
with no parameters, `next` on the empty iterator raises `StopIteration`.
The subsequent state-dict construction and hook attachment are external
collaborator calls and not modelled. -/
def cpu_offload (m : PModel) (exec_device : Option Device) :
    Except OffloadCallError Device :=
  match exec_device with
  | some d => .ok d
  | none =>
    match m.params.head? with
    | some p => .ok p.2
    | none => .error .stopIteration

/-- The execution-device resolution of `disk_offload` (lines 292-293), the
same defaulting rule as `cpu_offload` (the preceding `offload_state_dict`
persistence and the subsequent hook attachment are external calls). -/
def disk_offload (m : PModel) (offload_dir : String)
    (exec_device : Option Device) : Except OffloadCallError Device :=
  match exec_device with
  | some d => .ok d
  | none =>
    match m.params.head? with
    | some p => .ok p.2
    | none => .error .stopIteration

/-- A module tree node: the class names the module is an instance of (its
method-resolution order, so `isinstance` is list membership) and its named
children in registration order. -/
inductive MTree where
  | node (classes : List String) (children : List (String × MTree))

/-- Dotted path of a child: `f"{pre}.{name}" if pre else name`. -/
def child_path (pre name : String) : String :=
  if pre = "" then name else pre ++ "." ++ name

/-- The arguments of `_attach_layerwise_casting_hooks`: the skip classes and
skip patterns (a Python `None` behaves exactly like the empty tuple in the
source's guards and is modelled as `[]`), the external `re.search` given as
`pat_match pattern path`, and `SUPPORTED_PYTORCH_LAYERS_FOR_UPCASTING` as a
class-name list. -/
structure CastCfg where
  skip_modules_classes : List String
  skip_modules_pat : List String
  pat_match : String → String → Bool
  supported_layers : List String

/-- The `should_skip` guard of lines 740-742. -/
def should_skip (cfg : CastCfg) (classes : List String) (pre : String) :
    Bool :=
  classes.any (fun c => cfg.skip_modules_classes.contains c) ||
    cfg.skip_modules_pat.any (fun p => cfg.pat_match p pre)

/-- The `isinstance(module, SUPPORTED_PYTORCH_LAYERS_FOR_UPCASTING)` check
of line 747. -/
def is_supported (cfg : CastCfg) (classes : List String) : Bool :=
  classes.any (fun c => cfg.supported_layers.contains c)

mutual

/-- The recursion of `_attach_layerwise_casting_hooks` (lines 731-766),
returning the dotted paths of the modules that receive a
`LayerwiseCastingHook`, in visit order: a skipped node contributes nothing, a
non-skipped supported node contributes exactly its own path and is not
descended into, any other node contributes its children's results. -/
def attach_layerwise_casting_hooks (cfg : CastCfg) :
    MTree → String → List String
  | .node classes children, pre =>
    if should_skip cfg classes pre then []
    else if is_supported cfg classes then [pre]
    else casting_hooks_children cfg children pre

/-- The `for name, submodule in module.named_children()` loop of
lines 756-766. -/
def casting_hooks_children (cfg : CastCfg) :
    List (String × MTree) → String → List String
  | [], _ => []
  | (name, c) :: rest, pre =>
    attach_layerwise_casting_hooks cfg c (child_path pre name) ++
      casting_hooks_children cfg rest pre

end

/-- Declarative characterization of which node receives a casting hook: the
node at path `p` (reached from a root whose own path is `pre`) is hooked iff
it is supported and not skipped, and every node on the way to it is neither
skipped nor supported. -/
inductive HookedAt (cfg : CastCfg) : MTree → String → String → Prop where
  | here (classes : List String) (children : List (String × MTree))
      (pre : String) :
      should_skip cfg classes pre = false →
      is_supported cfg classes = true →
      HookedAt cfg (.node classes children) pre pre
  | via_child (classes : List String) (children : List (String × MTree))
      (pre name : String) (c : MTree) (p : String) :
      should_skip cfg classes pre = false →
      is_supported cfg classes = false →
      (name, c) ∈ children →
      HookedAt cfg c (child_path pre name) p →
      HookedAt cfg (.node classes children) pre p

/-! ### C9: the layerwise-casting traversal -/

theorem sizeOf_child_lt (classes : List String)
    (children : List (String × MTree)) (name : String) (c : MTree)
    (h : (name, c) ∈ children) :
    sizeOf c < sizeOf (MTree.node classes children) := by
  have h1 := List.sizeOf_lt_of_mem h
  have h2 : sizeOf c < sizeOf (name, c) := by
    simp only [Prod.mk.sizeOf_spec]
    omega
  have h3 : sizeOf children < sizeOf (MTree.node classes children) := by
    simp only [MTree.node.sizeOf_spec]
    omega
  omega

theorem mem_casting_hooks_children (cfg : CastCfg)
    (l : List (String × MTree)) (pre p : String) :
    p ∈ casting_hooks_children cfg l pre ↔
      ∃ nc ∈ l,
        p ∈ attach_layerwise_casting_hooks cfg nc.2 (child_path pre nc.1) := by
  induction l with
  | nil => simp [casting_hooks_children]
  | cons a rest ih =>
    obtain ⟨name, c⟩ := a
    simp only [casting_hooks_children, List.mem_append, ih, List.mem_cons]
    constructor
    · rintro (h | ⟨nc, hnc, hin⟩)
      · exact ⟨(name, c), Or.inl rfl, h⟩
      · exact ⟨nc, Or.inr hnc, hin⟩
    · rintro ⟨nc, (rfl | hnc), hin⟩
      · exact Or.inl hin
      · exact Or.inr ⟨nc, hnc, hin⟩

/-- C9: a dotted path receives a casting hook during the traversal of
`_attach_layerwise_casting_hooks` exactly when its node is a non-skipped
supported layer and every node on the way down to it is neither skipped nor
itself a supported layer (a skipped node excludes its whole subtree; a hooked
node's subtree is not traversed further).  Both sides are functions of the
tree and the skip arguments only, so the hooked set is deterministic on a
fixed tree. -/
theorem c9_layerwise_casting_traversal (cfg : CastCfg) (t : MTree)
    (pre p : String) :
    p ∈ attach_layerwise_casting_hooks cfg t pre ↔ HookedAt cfg t pre p := by
  constructor
  · have H : ∀ (N : Nat) (t : MTree) (pre p : String), sizeOf t ≤ N →
        p ∈ attach_layerwise_casting_hooks cfg t pre →
        HookedAt cfg t pre p := by
      intro N
      induction N with
      | zero =>
        intro t pre p hs _
        cases t with
        | node classes children =>
          simp only [MTree.node.sizeOf_spec] at hs
          omega
      | succ n ih =>
        intro t pre p hs hp
        cases t with
        | node classes children =>
          unfold attach_layerwise_casting_hooks at hp
          by_cases hskip : should_skip cfg classes pre = true
          · rw [if_pos hskip] at hp
            simp at hp
          · have hsf : should_skip cfg classes pre = false :=
              Bool.not_eq_true _ ▸ (by simpa using hskip)
            rw [if_neg hskip] at hp
            by_cases hsup : is_supported cfg classes = true
            · rw [if_pos hsup] at hp
              simp only [List.mem_singleton] at hp
              subst hp
              exact HookedAt.here _ _ _ hsf hsup
            · have hsupf : is_supported cfg classes = false :=
                Bool.not_eq_true _ ▸ (by simpa using hsup)
              rw [if_neg hsup] at hp
              obtain ⟨⟨name, c⟩, hmem, hin⟩ :=
                (mem_casting_hooks_children cfg children pre p).mp hp
              refine HookedAt.via_child _ _ _ _ _ _ hsf hsupf hmem ?_
              apply ih c (child_path pre name) p ?_ hin
              have := sizeOf_child_lt classes children name c hmem
              simp only [MTree.node.sizeOf_spec] at this hs
              omega
    exact fun hp => H (sizeOf t) t pre p (le_refl _) hp
  · intro h
    induction h with
    | here cl ch pre hsf hsup =>
      unfold attach_layerwise_casting_hooks
      rw [if_neg (by simp [hsf]), if_pos hsup]
      simp
    | via_child cl ch pre name c p hsf hsupf hmem _ ihrec =>
      unfold attach_layerwise_casting_hooks
      rw [if_neg (by simp [hsf]), if_neg (by simp [hsupf])]
      exact (mem_casting_hooks_children cfg ch pre p).mpr
        ⟨(name, c), hmem, ihrec⟩

/-! ### General lemmas about the dictionary model -/

theorem lookup_map_snd {κ α β : Type} [BEq κ] (l : List (κ × α)) (f : α → β)
    (k : κ) :
    (l.map (fun p => (p.1, f p.2))).lookup k = (l.lookup k).map f := by
  induction l with
  | nil => rfl
  | cons a t ih =>
    obtain ⟨k', v⟩ := a
    cases hkk : (k == k') <;> simp [List.lookup, hkk, ih]

theorem dlookup_map_snd {κ α β : Type} [BEq κ] (l : List (κ × α)) (f : α → β)
    (k : κ) :
    dlookup (l.map (fun p => (p.1, f p.2))) k = (dlookup l k).map f := by
  unfold dlookup
  rw [← List.map_reverse, lookup_map_snd]

theorem head?_filter_eq_find? {α : Type} (l : List α) (p : α → Bool) :
    (l.filter p).head? = l.find? p := by
  induction l with
  | nil => rfl
  | cons a t ih => by_cases h : p a <;> simp [List.filter, List.find?, h, ih]

/-! ### C5: main device selection -/

/-- The condition "the set of tier values is {Host} or {Host, Disk}". -/
theorem set_eq_cpu_disk_iff (vals : List Device) :
    (set_eq vals [Device.cpu] ||
      set_eq vals [Device.cpu, Device.disk]) = true ↔
    Device.cpu ∈ vals ∧ ∀ d ∈ vals, d = Device.cpu ∨ d = Device.disk := by
  simp [set_eq, List.all_eq_true]
  constructor
  · rintro (⟨h1, h2⟩ | ⟨h1, h2, h3⟩)
    · exact ⟨h2, fun d hd => Or.inl (h1 d hd)⟩
    · exact ⟨h2, h1⟩
  · rintro ⟨hc, hall⟩
    by_cases hdisk : Device.disk ∈ vals
    · exact Or.inr ⟨hall, hc, hdisk⟩
    · refine Or.inl ⟨fun v hv => ?_, hc⟩
      rcases hall v hv with h | h
      · exact h
      · exact absurd (h ▸ hv) hdisk

/-- C5: when the caller does not override `main_device` on the hook path,
`dispatch_model` selects main device = Host (`"cpu"`) exactly when the set of
tier values in the device map is {Host} or {Host, Disk}; otherwise the main
device is the first tier value in map iteration order that is neither Host
nor Disk (`none` when no such value exists, modelling the source's uncaught
`IndexError`). -/
theorem c5_main_device_selection (dm : List (String × Device)) :
    (select_main_device dm = some Device.cpu ↔
      Device.cpu ∈ dev_values dm ∧
        ∀ d ∈ dev_values dm, d = Device.cpu ∨ d = Device.disk) ∧
    ((¬ (Device.cpu ∈ dev_values dm ∧
        ∀ d ∈ dev_values dm, d = Device.cpu ∨ d = Device.disk)) →
      select_main_device dm =
        (dev_values dm).find?
          (fun d => !(d == Device.cpu || d == Device.disk))) := by
  by_cases h : Device.cpu ∈ dev_values dm ∧
      ∀ d ∈ dev_values dm, d = Device.cpu ∨ d = Device.disk
  · refine ⟨⟨fun _ => h, fun _ => ?_⟩, fun hn => absurd h hn⟩
    unfold select_main_device
    rw [if_pos ((set_eq_cpu_disk_iff (dev_values dm)).mpr h)]
  · have hb : (set_eq (dev_values dm) [Device.cpu] ||
        set_eq (dev_values dm) [Device.cpu, Device.disk]) = false := by
      cases hcb : (set_eq (dev_values dm) [Device.cpu] ||
          set_eq (dev_values dm) [Device.cpu, Device.disk]) with
      | true => exact absurd ((set_eq_cpu_disk_iff (dev_values dm)).mp hcb) h
      | false => rfl
    have hsel : select_main_device dm =
        (dev_values dm).find?
          (fun d => !(d == Device.cpu || d == Device.disk)) := by
      unfold select_main_device
      rw [hb]
      simp only [Bool.false_eq_true, if_false]
      exact head?_filter_eq_find? _ _
    refine ⟨⟨fun hcpu => ?_, fun hh => absurd hh h⟩, fun _ => hsel⟩
    rw [hsel] at hcpu
    have hmem := List.find?_some hcpu
    simp at hmem

theorem exists_key_of_lookup {κ α : Type} [BEq κ] (l : List (κ × α)) (k : κ)
    (v : α) (h : l.lookup k = some v) : ∃ k', (k', v) ∈ l := by
  induction l with
  | nil => simp [List.lookup] at h
  | cons a t ih =>
    obtain ⟨k', v'⟩ := a
    cases hkk : (k == k') with
    | true =>
      simp [List.lookup, hkk] at h
      exact ⟨k', by simp [h]⟩
    | false =>
      simp [List.lookup, hkk] at h
      obtain ⟨k'', hk⟩ := ih h
      exact ⟨k'', by simp [hk]⟩

/-- Witness for C5: on the concrete map {a: cpu, b: disk} the selection
returns cpu, by the theorem's first conjunct. -/
theorem c5_main_device_selection_witness :
    select_main_device [("a", Device.cpu), ("b", Device.disk)] =
      some Device.cpu :=
  (c5_main_device_selection [("a", Device.cpu), ("b", Device.disk)]).1.mpr
    (by decide)

/-! ### C6: the execution-device table -/

/-- C6: the `execution_device` dict maps every non-root module path whose
tier is Host or Disk to the main device, maps every non-root path with an
accelerator tier to that accelerator (both read through Python-dict lookup),
and maps the root path `""` to the main device (the root assignment of line
398 takes precedence over any `""` entry of the device map); provided the
main device is not Disk, no entry of the table is `"disk"`. -/
theorem c6_execution_device_table (main : Device)
    (dm : List (String × Device)) (hmain : main ≠ Device.disk) :
    dlookup (execution_device main dm) "" = some main ∧
    (∀ n d, n ≠ "" → dlookup dm n = some d →
      dlookup (execution_device main dm) n =
        some (if d = Device.cpu ∨ d = Device.disk then main else d)) ∧
    (∀ n v, dlookup (execution_device main dm) n = some v →
      v ≠ Device.disk) := by
  have htrans : ∀ d : Device, exec_transform main d ≠ Device.disk := by
    intro d
    unfold exec_transform
    by_cases hb : (d == Device.cpu || d == Device.disk) = true
    · rw [if_pos hb]; exact hmain
    · rw [if_neg hb]
      intro hvd
      apply hb
      simp [hvd]
  have hskip : ∀ n, n ≠ "" →
      dlookup (execution_device main dm) n =
        dlookup (dm.map (fun p => (p.1, exec_transform main p.2))) n := by
    intro n hn
    have hne : (n == "") = false := by simp [hn]
    simp only [execution_device, dlookup, List.reverse_append,
      List.reverse_cons, List.reverse_nil, List.nil_append,
      List.singleton_append, List.lookup_cons, hne]
  refine ⟨?_, ?_, ?_⟩
  · simp only [execution_device, dlookup, List.reverse_append,
      List.reverse_cons, List.reverse_nil, List.nil_append,
      List.singleton_append, List.lookup_cons, beq_self_eq_true]
  · intro n d hn hdm
    rw [hskip n hn, dlookup_map_snd, hdm]
    unfold exec_transform
    by_cases hd : d = Device.cpu ∨ d = Device.disk
    · rcases hd with rfl | rfl <;> simp
    · have h1 : d ≠ Device.cpu := fun h => hd (Or.inl h)
      have h2 : d ≠ Device.disk := fun h => hd (Or.inr h)
      simp [h1, h2, hd]
  · intro n v hv
    obtain ⟨k', hk⟩ := exists_key_of_lookup _ _ _ hv
    rw [List.mem_reverse] at hk
    rcases List.mem_append.mp hk with hk | hk
    · obtain ⟨p, _, hp⟩ := List.mem_map.mp hk
      have hv' : v = exec_transform main p.2 := by
        have := congrArg Prod.snd hp
        simpa using this.symm
      rw [hv']
      exact htrans p.2
    · have : v = main := by
        simpa using congrArg Prod.snd (List.mem_singleton.mp hk)
      rw [this]; exact hmain

/-- Witness for C6: with main device `acc 0` and the concrete map
{a: cpu, b: acc 1}, the root resolves to `acc 0`, path a to the main device,
path b to its own accelerator, and no entry is disk. -/
theorem c6_execution_device_table_witness :
    dlookup (execution_device (Device.acc 0)
      [("a", Device.cpu), ("b", Device.acc 1)]) "" = some (Device.acc 0) ∧
    dlookup (execution_device (Device.acc 0)
      [("a", Device.cpu), ("b", Device.acc 1)]) "a" = some (Device.acc 0) ∧
    dlookup (execution_device (Device.acc 0)
      [("a", Device.cpu), ("b", Device.acc 1)]) "b" = some (Device.acc 1) := by
  have h := c6_execution_device_table (Device.acc 0)
    [("a", Device.cpu), ("b", Device.acc 1)] (by decide)
  refine ⟨h.1, ?_, ?_⟩
  · have := h.2.1 "a" Device.cpu (by decide) (by decide)
    simpa using this
  · have := h.2.1 "b" (Device.acc 1) (by decide) (by decide)
    simpa using this

/-! ### C3: the offload flag table (corrected) -/

/-- Counterexample to C3 as stated: the offload flag is *not* true for every
Host/Disk-tier module for all choices of main device — with main device Host
(`"cpu"`), a Host-tier module path gets flag `false`, because line 399 puts
only `"disk"` in `offloaded_devices` when the main device is `"cpu"` (or
`"mps"`). -/
theorem c3_offload_flag_counterexample :
    hf_tier_of (dispatch_model {} m0 [("a", Device.cpu), ("b", Device.disk)]
        none (some "tmp") none false []) "a" = some (some Device.cpu) ∧
    offload_of (dispatch_model {} m0 [("a", Device.cpu), ("b", Device.disk)]
        none (some "tmp") none false []) "a" = some (some false) := by
  constructor
  · rfl
  · rfl

/-- C3 amended: the offload flag of a module path is true exactly when its
tier is in the main-device-dependent offloaded set of line 399: only Disk
when the main device is Host (`"cpu"`) or `"mps"`, and Host-or-Disk
otherwise. -/
theorem c3_offload_flag_amended (main : Device) (dm : List (String × Device))
    (n : String) (d : Device) (h : dlookup dm n = some d) :
    (dlookup (offload_flags main dm) n = some true ↔
      (if main = Device.cpu ∨ main = Device.mps then d = Device.disk
        else d = Device.cpu ∨ d = Device.disk)) := by
  have h1 : dlookup (offload_flags main dm) n =
      (dlookup dm n).map (fun x => (offloaded_devices main).contains x) :=
    dlookup_map_snd dm _ n
  rw [h1, h]
  unfold offloaded_devices
  by_cases hm : main = Device.cpu ∨ main = Device.mps
  · have hb : (main == Device.cpu || main == Device.mps) = true := by
      rcases hm with rfl | rfl <;> decide
    simp [hb, hm]
  · have h1 : main ≠ Device.cpu := fun hh => hm (Or.inl hh)
    have h2 : main ≠ Device.mps := fun hh => hm (Or.inr hh)
    simp [h1, h2, hm]

/-- Witness for C3 amended: with main device `acc 0`, a Host-tier path has
flag true. -/
theorem c3_offload_flag_amended_witness :
    dlookup (offload_flags (Device.acc 0) [("a", Device.cpu)]) "a" =
      some true :=
  (c3_offload_flag_amended (Device.acc 0) [("a", Device.cpu)] "a" Device.cpu
    (by decide)).mpr (by decide)

/-! ### C8: missing offload dir with disk modules -/

/-- C8: on the hook path, if some module path maps to the Disk tier and the
caller supplies neither an offload directory nor an offload index,
`dispatch_model` fails with the error naming exactly the disk-bound module
paths; since the call errors out, no hook-attachment or persistence event is
produced. -/
theorem c8_disk_needs_offload_dir (env : Env) (m : PModel)
    (dm : List (String × Device)) (main_arg : Option Device)
    (force_hooks : Bool) (tied_params : List (List String)) (mn : Device)
    (hhook : ((dev_values dm).dedup.length > 1 ||
      (force_hooks || quant_forces_hooks env m)) = true)
    (hmain : resolve_main_device main_arg dm = some mn)
    (hdisk : disk_modules dm ≠ []) :
    dispatch_model env m dm main_arg none none force_hooks tied_params =
      .error (.needOffloadDir (disk_modules dm)) ∧
    events_of
      (dispatch_model env m dm main_arg none none force_hooks tied_params) =
      none := by
  have hlen : 0 < (disk_modules dm).length := List.length_pos.mpr hdisk
  have hres : dispatch_model env m dm main_arg none none force_hooks
      tied_params = .error (.needOffloadDir (disk_modules dm)) := by
    unfold dispatch_model
    simp only [hhook, if_true, hmain, Option.isNone_none, Bool.true_and,
      hlen, decide_eq_true_eq]
  exact ⟨hres, by rw [hres]; rfl⟩

/-- Witness for C8: a two-device map with a disk-bound module and no offload
dir or index errors out naming that module. -/
theorem c8_disk_needs_offload_dir_witness :
    dispatch_model {} m0 [("a", Device.acc 0), ("b", Device.disk)] none none
      none false [] = .error (.needOffloadDir ["b"]) :=
  (c8_disk_needs_offload_dir {} m0 [("a", Device.acc 0), ("b", Device.disk)]
    none false [] (Device.acc 0) (by decide) (by decide) (by decide)).1

/-! ### C10: default execution device of cpu_offload / disk_offload -/

/-- C10: when `execution_device` is omitted, `cpu_offload` and `disk_offload`
default it to the device of the model's first parameter; for a model with
zero parameters this lookup raises (`StopIteration` from `next` on an empty
iterator) instead of falling back to any device. -/
theorem c10_offload_default_execution_device (m : PModel) (dir : String) :
    (m.params = [] →
      cpu_offload m none = .error .stopIteration ∧
      disk_offload m dir none = .error .stopIteration) ∧
    (∀ p ps, m.params = p :: ps →
      cpu_offload m none = .ok p.2 ∧ disk_offload m dir none = .ok p.2) := by
  constructor
  · intro h
    simp [cpu_offload, disk_offload, h]
  · intro p ps h
    simp [cpu_offload, disk_offload, h]

/-- Witness for C10: the default resolves to the first parameter's device on
a one-parameter model and raises on a parameterless model. -/
theorem c10_offload_default_execution_device_witness :
    cpu_offload m0 none = .ok (Device.acc 0) ∧
    disk_offload { params := [], buffers := [] } "d" none =
      .error .stopIteration :=
  ⟨((c10_offload_default_execution_device m0 "d").2 ("w", Device.acc 0) []
      rfl).1,
    ((c10_offload_default_execution_device { params := [], buffers := [] }
      "d").1 rfl).2⟩

/-! ### Lemmas about dict insertion and the tied-parameter map -/

theorem keys_dinsert {κ α : Type} [BEq κ] [LawfulBEq κ]
    (l : List (κ × α)) (k : κ) (v : α) (k' : κ) :
    k' ∈ (dinsert l k v).map (fun e => e.1) ↔
      k' ∈ l.map (fun e => e.1) ∨ k' = k := by
  unfold dinsert
  by_cases h : l.any (fun p => p.1 == k)
  · rw [if_pos h]
    rw [List.map_map]
    simp only [List.mem_map, Function.comp_apply]
    constructor
    · rintro ⟨q, hq, hq1⟩
      by_cases hqk : (q.1 == k) = true
      · right
        rw [← hq1]
        simp [hqk]
      · left
        refine ⟨q, hq, ?_⟩
        rw [← hq1]
        simp [hqk]
    · rintro (⟨q, hq, hq1⟩ | rfl)
      · refine ⟨q, hq, ?_⟩
        by_cases hqk : (q.1 == k) = true
        · simp only [hqk, if_true]
          rw [← eq_of_beq hqk]
          exact hq1
        · simp only [hqk, Bool.false_eq_true, if_false]
          exact hq1
      · obtain ⟨p, hp, hpk⟩ := List.any_eq_true.mp h
        refine ⟨p, hp, ?_⟩
        simp [hpk]
  · rw [if_neg h]
    simp [List.map_append]

theorem keys_nodup_dinsert {κ α : Type} [BEq κ] [LawfulBEq κ]
    (l : List (κ × α)) (k : κ) (v : α)
    (h : (l.map (fun e => e.1)).Nodup) :
    ((dinsert l k v).map (fun e => e.1)).Nodup := by
  unfold dinsert
  by_cases hc : l.any (fun p => p.1 == k)
  · rw [if_pos hc]
    have hkeys : (l.map (fun p => if p.1 == k then (k, v) else p)).map
        (fun e => e.1) = l.map (fun e => e.1) := by
      rw [List.map_map]
      apply List.map_congr_left
      intro p _
      by_cases hp : (p.1 == k) = true
      · simp only [Function.comp_apply, hp, if_true]
        exact (eq_of_beq hp).symm
      · simp [Function.comp_apply, hp]
    rw [hkeys]
    exact h
  · rw [if_neg hc]
    have hnk : k ∉ l.map (fun e => e.1) := by
      intro hm
      obtain ⟨q, hq, hq1⟩ := List.mem_map.mp hm
      exact hc (List.any_eq_true.mpr ⟨q, hq, by simp [hq1]⟩)
    simp only [List.map_append, List.map_cons, List.map_nil]
    exact List.Nodup.append h (List.nodup_singleton k)
      (by simpa [List.disjoint_singleton] using hnk)

theorem values_dinsert {κ α : Type} [BEq κ] (l : List (κ × α)) (k : κ)
    (v : α) (h : ∀ e ∈ l, e.2 = v) : ∀ e ∈ dinsert l k v, e.2 = v := by
  unfold dinsert
  by_cases hc : l.any (fun p => p.1 == k)
  · rw [if_pos hc]
    intro e he
    obtain ⟨q, hq, hq1⟩ := List.mem_map.mp he
    by_cases hqk : (q.1 == k) = true
    · rw [← hq1]
      simp [hqk]
    · rw [← hq1]
      simp only [hqk, Bool.false_eq_true, if_false]
      exact h q hq
  · rw [if_neg hc]
    intro e he
    rcases List.mem_append.mp he with he | he
    · exact h e he
    · simp only [List.mem_singleton] at he
      rw [he]

theorem lookup_of_all_values {κ α : Type} [BEq κ] [LawfulBEq κ]
    (l : List (κ × α)) (v : α) (k : κ) (hall : ∀ e ∈ l, e.2 = v)
    (hk : k ∈ l.map (fun e => e.1)) : l.lookup k = some v := by
  induction l with
  | nil => simp at hk
  | cons a t ih =>
    obtain ⟨k', v'⟩ := a
    by_cases h : (k == k') = true
    · have hv : v' = v := hall (k', v') (by simp)
      simp [List.lookup, h, hv]
    · simp only [List.lookup, h]
      apply ih (fun e he => hall e (List.mem_cons_of_mem _ he))
      simp only [List.map_cons, List.mem_cons] at hk
      rcases hk with hk | hk
      · exact absurd (by simp [hk]) h
      · exact hk

theorem dlookup_of_all_values {κ α : Type} [BEq κ] [LawfulBEq κ]
    (l : List (κ × α)) (v : α) (k : κ) (hall : ∀ e ∈ l, e.2 = v)
    (hk : k ∈ l.map (fun e => e.1)) : dlookup l k = some v := by
  unfold dlookup
  apply lookup_of_all_values
  · intro e he
    exact hall e (List.mem_reverse.mp he)
  · rw [List.map_reverse, List.mem_reverse]
    exact hk

theorem tied_inner_values (f : String → Nat) (g : List String)
    (acc : List (Nat × CacheSlot)) (h : ∀ e ∈ acc, e.2 = ([] : CacheSlot)) :
    ∀ e ∈ g.foldl (fun m n => dinsert m (f n) []) acc,
      e.2 = ([] : CacheSlot) := by
  induction g generalizing acc with
  | nil => exact h
  | cons n t ih =>
    exact ih (dinsert acc (f n) []) (values_dinsert acc (f n) [] h)

theorem tied_values (f : String → Nat) (gs : List (List String))
    (acc : List (Nat × CacheSlot)) (h : ∀ e ∈ acc, e.2 = ([] : CacheSlot)) :
    ∀ e ∈ gs.foldl
        (fun m g => g.foldl (fun m n => dinsert m (f n) []) m) acc,
      e.2 = ([] : CacheSlot) := by
  induction gs generalizing acc with
  | nil => exact h
  | cons g t ih => exact ih _ (tied_inner_values f g acc h)

theorem tied_inner_nodup (f : String → Nat) (g : List String)
    (acc : List (Nat × CacheSlot))
    (h : (acc.map (fun e => e.1)).Nodup) :
    (((g.foldl (fun m n => dinsert m (f n) []) acc)).map
      (fun e => e.1)).Nodup := by
  induction g generalizing acc with
  | nil => exact h
  | cons n t ih =>
    exact ih (dinsert acc (f n) []) (keys_nodup_dinsert acc (f n) [] h)

theorem tied_nodup (f : String → Nat) (gs : List (List String))
    (acc : List (Nat × CacheSlot))
    (h : (acc.map (fun e => e.1)).Nodup) :
    ((gs.foldl (fun m g => g.foldl (fun m n => dinsert m (f n) []) m)
        acc).map (fun e => e.1)).Nodup := by
  induction gs generalizing acc with
  | nil => exact h
  | cons g t ih => exact ih _ (tied_inner_nodup f g acc h)

theorem tied_inner_mem (f : String → Nat) (g : List String)
    (acc : List (Nat × CacheSlot)) (k : Nat) :
    k ∈ (g.foldl (fun m n => dinsert m (f n) []) acc).map (fun e => e.1) ↔
      k ∈ acc.map (fun e => e.1) ∨ ∃ n ∈ g, f n = k := by
  induction g generalizing acc with
  | nil => simp
  | cons n t ih =>
    simp only [List.foldl_cons]
    rw [ih]
    rw [keys_dinsert]
    constructor
    · rintro ((hm | rfl) | ⟨n', hn', hfn⟩)
      · exact Or.inl hm
      · exact Or.inr ⟨n, by simp⟩
      · exact Or.inr ⟨n', by simp [hn'], hfn⟩
    · rintro (hm | ⟨n', hn', hfn⟩)
      · exact Or.inl (Or.inl hm)
      · rcases List.mem_cons.mp hn' with rfl | hn'
        · exact Or.inl (Or.inr hfn.symm)
        · exact Or.inr ⟨n', hn', hfn⟩

theorem tied_mem (f : String → Nat) (gs : List (List String))
    (acc : List (Nat × CacheSlot)) (k : Nat) :
    k ∈ (gs.foldl (fun m g => g.foldl (fun m n => dinsert m (f n) []) m)
        acc).map (fun e => e.1) ↔
      k ∈ acc.map (fun e => e.1) ∨ ∃ g ∈ gs, ∃ n ∈ g, f n = k := by
  induction gs generalizing acc with
  | nil => simp
  | cons g t ih =>
    simp only [List.foldl_cons]
    rw [ih, tied_inner_mem]
    constructor
    · rintro ((hm | ⟨n, hn, hfn⟩) | ⟨g', hg', hx⟩)
      · exact Or.inl hm
      · exact Or.inr ⟨g, by simp, n, hn, hfn⟩
      · exact Or.inr ⟨g', by simp [hg'], hx⟩
    · rintro (hm | ⟨g', hg', n, hn, hfn⟩)
      · exact Or.inl (Or.inl hm)
      · rcases List.mem_cons.mp hg' with rfl | hg'
        · exact Or.inl (Or.inr ⟨n, hn, hfn⟩)
        · exact Or.inr ⟨g', hg', n, hn, hfn⟩

theorem ordered_attach_retie (A : List Event) (gs : List (List String))
    (ws : List String) :
    ∃ l₁ l₂ l₃,
      A ++ [Event.attachHooks, Event.retie gs, Event.wrapMethods ws] =
        l₁ ++ Event.attachHooks :: (l₂ ++ Event.retie gs :: l₃) :=
  ⟨A, [], [Event.wrapMethods ws], by simp⟩

/-! ### C1: the tied-parameter map and the retie step -/

/-- C1: on the hook path, the tied-parameter map has pairwise distinct keys,
its keys are exactly the storage addresses of the names in the discovered tie
groups, every slot is initially empty (so every name of a group keys an
empty slot — names of one group alias one storage, hence one key), and the
retie event occurs strictly after the hook-attachment event and before the
function returns. -/
theorem c1_tied_params_map_and_retie (env : Env) (m : PModel)
    (dm : List (String × Device)) (main_arg : Option Device)
    (offload_dir : Option String) (offload_index : Option Unit)
    (force_hooks : Bool) (tied_params : List (List String)) (mn : Device)
    (hhook : ((dev_values dm).dedup.length > 1 ||
      (force_hooks || quant_forces_hooks env m)) = true)
    (hmain : resolve_main_device main_arg dm = some mn)
    (hnd : offload_dir ≠ none ∨ offload_index ≠ none ∨
      disk_modules dm = []) :
    ∃ o, dispatch_model env m dm main_arg offload_dir offload_index
        force_hooks tied_params = .ok o ∧
      (o.tied_map.map (fun e => e.1)).Nodup ∧
      (∀ k, k ∈ o.tied_map.map (fun e => e.1) ↔
        ∃ g ∈ tied_params, ∃ n ∈ g, m.data_ptr n = k) ∧
      (∀ g ∈ tied_params, ∀ n ∈ g,
        dlookup o.tied_map (m.data_ptr n) = some ([] : CacheSlot)) ∧
      (∃ l₁ l₂ l₃, o.events =
        l₁ ++ Event.attachHooks :: (l₂ ++ Event.retie tied_params :: l₃)) := by
  have hbool : (offload_dir.isNone && offload_index.isNone &&
      decide (0 < (disk_modules dm).length)) = false := by
    rcases hnd with h | h | h
    · cases hh : offload_dir with
      | none => exact absurd hh h
      | some v => simp [hh]
    · cases hh : offload_index with
      | none => exact absurd hh h
      | some v => simp [hh]
    · simp [h]
  unfold dispatch_model
  simp only [hhook, if_true, hmain, hbool]
  refine ⟨_, rfl, ?_, ?_, ?_, ?_⟩
  · exact tied_nodup m.data_ptr tied_params [] (by simp)
  · intro k
    have := tied_mem m.data_ptr tied_params [] k
    simpa using this
  · intro g hg n hn
    apply dlookup_of_all_values
    · exact tied_values m.data_ptr tied_params [] (by simp)
    · exact (tied_mem m.data_ptr tied_params [] _).mpr
        (Or.inr ⟨g, hg, n, hn, rfl⟩)
  · exact ordered_attach_retie _ _ _

/-- A model with two parameters tied to one storage address (5), used as
the C1 witness. -/
def mTied : PModel :=
  { params := [("a", Device.acc 0), ("b", Device.acc 0)], buffers := [],
    data_ptr := fun n => if n = "a" then 5 else if n = "b" then 5 else 0 }

/-- Witness for C1: dispatching `mTied` over a two-tier map with tie group
[a, b] yields a tied map with the single empty slot keyed by address 5, and
the retie event after the attach event. -/
theorem c1_tied_params_map_and_retie_witness :
    ∃ o, dispatch_model {} mTied [("x", Device.cpu), ("y", Device.acc 0)]
        none none none false [["a", "b"]] = .ok o ∧
      (o.tied_map.map (fun e => e.1)).Nodup ∧
      (∀ k, k ∈ o.tied_map.map (fun e => e.1) ↔
        ∃ g ∈ [["a", "b"]], ∃ n ∈ g, mTied.data_ptr n = k) ∧
      (∀ g ∈ [["a", "b"]], ∀ n ∈ g,
        dlookup o.tied_map (mTied.data_ptr n) = some ([] : CacheSlot)) ∧
      (∃ l₁ l₂ l₃, o.events =
        l₁ ++ Event.attachHooks ::
          (l₂ ++ Event.retie [["a", "b"]] :: l₃)) :=
  c1_tied_params_map_and_retie {} mTied
    [("x", Device.cpu), ("y", Device.acc 0)] none none none false
    [["a", "b"]] (Device.acc 0) (by decide) (by decide)
    (Or.inr (Or.inr rfl))

/-! ### C2: the post-dispatch movement guard -/

/-- A whole-model move to a concrete (non-meta) device leaves a parameter on
the `meta` placeholder exactly when it was there before the move. -/
theorem model_to_any_meta (d : Device) (hd : d ≠ Device.meta) (m : PModel) :
    ((model_to d m).params.any (fun p => p.2 == Device.meta)) =
      (m.params.any (fun p => p.2 == Device.meta)) := by
  simp only [model_to, List.any_map]
  congr 1
  funext x
  simp only [Function.comp_apply]
  by_cases hx : x.2 = Device.meta <;> simp [hx, hd]

/-- C2: after a hook-path dispatch, the model's whole-model transfer entry
points — `to` plus the platform's accelerator-specific method chosen by the
elif chain — are wrapped; a wrapped call attempting to move the whole model
(`to` with a parsed target device, or an accelerator method) always logs the
warning, fails fatally when the moved model would still have a parameter on
the `meta` placeholder, and succeeds with only the warning when every
parameter is concretely placed. -/
theorem c2_movement_guard (env : Env) (m : PModel)
    (dm : List (String × Device)) (main_arg : Option Device)
    (offload_dir : Option String) (offload_index : Option Unit)
    (force_hooks : Bool) (tied_params : List (List String)) (mn : Device)
    (hhook : ((dev_values dm).dedup.length > 1 ||
      (force_hooks || quant_forces_hooks env m)) = true)
    (hmain : resolve_main_device main_arg dm = some mn)
    (hnd : offload_dir ≠ none ∨ offload_index ≠ none ∨
      disk_modules dm = []) :
    (∃ o, dispatch_model env m dm main_arg offload_dir offload_index
        force_hooks tied_params = .ok o ∧
      o.wrapped = ["to", accel_method env]) ∧
    (∀ (is_to : Bool) (td : Option Device) (d : Device),
      d ≠ Device.meta → (is_to = false ∨ td.isSome = true) →
      ((∃ p ∈ (model_to d m).params, p.2 = Device.meta) →
        add_warning is_to td (model_to d) m =
          ([warn_msg], .error .metaParamsPresent)) ∧
      ((∀ p ∈ (model_to d m).params, p.2 ≠ Device.meta) →
        add_warning is_to td (model_to d) m =
          ([warn_msg], .ok (model_to d m)))) := by
  constructor
  · have hbool : (offload_dir.isNone && offload_index.isNone &&
        decide (0 < (disk_modules dm).length)) = false := by
      rcases hnd with h | h | h
      · cases hh : offload_dir with
        | none => exact absurd hh h
        | some v => simp [hh]
      · cases hh : offload_index with
        | none => exact absurd hh h
        | some v => simp [hh]
      · simp [h]
    unfold dispatch_model
    simp only [hhook, if_true, hmain, hbool]
    exact ⟨_, rfl, rfl⟩
  · intro is_to td d hd hmove
    have hwarn : (if is_to then
        (if td.isSome then [warn_msg] else []) else [warn_msg]) =
          [warn_msg] := by
      rcases hmove with h | h
      · simp [h]
      · cases is_to <;> simp [h]
    constructor
    · intro hmeta
      have hany : (m.params.any (fun p => p.2 == Device.meta)) = true := by
        rw [← model_to_any_meta d hd m]
        obtain ⟨p, hp, hp2⟩ := hmeta
        exact List.any_eq_true.mpr ⟨p, hp, by simp [hp2]⟩
      unfold add_warning
      rw [hwarn, if_pos hany]
    · intro hplaced
      have hany : (m.params.any (fun p => p.2 == Device.meta)) = false := by
        rw [← model_to_any_meta d hd m]
        cases hh : (model_to d m).params.any (fun p => p.2 == Device.meta) with
        | false => rfl
        | true =>
          obtain ⟨p, hp, hp2⟩ := List.any_eq_true.mp hh
          exact absurd (by simpa using hp2) (hplaced p hp)
      unfold add_warning
      rw [hwarn, if_neg (by simp [hany])]

/-- Witness for C2: a concrete two-tier dispatch wraps `to` and `cuda`, and a
wrapped `to` call on a fully placed model succeeds with only the warning. -/
theorem c2_movement_guard_witness :
    (∃ o, dispatch_model {} m0 [("a", Device.cpu), ("b", Device.acc 0)] none
        none none false [] = .ok o ∧ o.wrapped = ["to", "cuda"]) ∧
    add_warning true (some (Device.acc 1)) (model_to (Device.acc 1)) m0 =
      ([warn_msg], .ok (model_to (Device.acc 1) m0)) := by
  have h := c2_movement_guard {} m0 [("a", Device.cpu), ("b", Device.acc 0)]
    none none none false [] (Device.acc 0) (by decide) (by decide)
    (Or.inr (Or.inr rfl))
  exact ⟨h.1, (h.2 true (some (Device.acc 1)) (Device.acc 1) (by decide)
    (Or.inr rfl)).2 (by decide)⟩

/-! ### C4: the single-tier fast path (corrected) -/

/-- A model loaded in 8-bit by bitsandbytes (lines 358-363 force hooks for
it). -/
def m8bit : PModel :=
  { params := [("w", Device.cpu)], buffers := [], is_loaded_in_8bit := true }

/-- A model with one meta and one concretely placed parameter. -/
def mMeta : PModel :=
  { params := [("a", Device.meta), ("b", Device.cpu)], buffers := [] }

/-- Counterexample to C4 as stated: (1) an 8-bit quantized model with a
single-tier map and `force_hooks = False` does *not* take the fast path —
hooks are installed (lines 358-363 overwrite `force_hooks`); (2) on the fast
path, a model with a meta parameter is *not* moved as a unit — its concretely
placed parameter `b` stays on cpu instead of moving to the sole tier
`acc 0`. -/
theorem c4_fast_path_counterexample :
    events_of (dispatch_model {} m8bit [("", Device.cpu)] none none none
        false []) =
      some [Event.attachHooks, Event.retie [],
        Event.wrapMethods ["to", "cuda"]] ∧
    params_of (dispatch_model {} mMeta [("", Device.acc 0)] none none none
        false []) = some [("a", Device.acc 0), ("b", Device.cpu)] := by
  constructor
  · rfl
  · rfl

/-- C4 amended: if the device map uses exactly one distinct tier value,
`force_hooks` is false, and the model is not a bitsandbytes-quantized model
that forces hooks, `dispatch_model` takes the fast path: no hook or wrapping
event occurs, and — when no parameter is on the meta placeholder — the whole
model is moved as a unit to that tier; if the sole tier is Disk the call
fails fatally (directing the caller to `disk_offload`) and no move is
performed. -/
theorem c4_fast_path_amended (env : Env) (m : PModel)
    (dm : List (String × Device)) (main_arg : Option Device)
    (offload_dir : Option String) (offload_index : Option Unit)
    (tied_params : List (List String)) (d : Device)
    (hsingle : (dev_values dm).dedup.length = 1)
    (hq : quant_forces_hooks env m = false)
    (hhead : (dev_values dm).head? = some d) :
    (d ≠ Device.disk →
      m.params.any (fun p => p.2 == Device.meta) = false →
      ∃ o, dispatch_model env m dm main_arg offload_dir offload_index false
          tied_params = .ok o ∧
        o.events = [] ∧ o.wrapped = [] ∧ o.model = model_to d m) ∧
    (d = Device.disk →
      dispatch_model env m dm main_arg offload_dir offload_index false
        tied_params = .error .wholeModelToDisk) := by
  have hcond : ((dev_values dm).dedup.length > 1 ||
      (false || quant_forces_hooks env m)) = false := by
    simp [hsingle, hq]
  constructor
  · intro hdn hnometa
    have hdb : (d == Device.disk) = false := by simp [hdn]
    unfold dispatch_model
    simp only [hcond, Bool.false_eq_true, if_false, hhead, hdb, hnometa]
    exact ⟨_, rfl, rfl, rfl, rfl⟩
  · intro hdd
    subst hdd
    unfold dispatch_model
    simp only [hcond, Bool.false_eq_true, if_false, hhead]
    rfl

/-- Witness for C4 amended: a single-accelerator map on an unquantized,
fully placed model is bulk-moved with no events. -/
theorem c4_fast_path_amended_witness :
    ∃ o, dispatch_model {} m0 [("", Device.acc 0)] none none none false []
        = .ok o ∧
      o.events = [] ∧ o.wrapped = [] ∧ o.model = model_to (Device.acc 0) m0 :=
  (c4_fast_path_amended {} m0 [("", Device.acc 0)] none none none []
    (Device.acc 0) (by decide) (by decide) (by decide)).1 (by decide)
    (by decide)

/-! ### C7: per-tensor materialization on the fast path with meta params -/

/-- C7: on the single-tier non-disk fast path, if any parameter is on the
meta placeholder then every meta parameter and buffer is individually
materialized onto the tier, and every already materialized parameter and
buffer keeps its device untouched (no bulk move). -/
theorem c7_fast_path_meta_materialization (env : Env) (m : PModel)
    (dm : List (String × Device)) (main_arg : Option Device)
    (offload_dir : Option String) (offload_index : Option Unit)
    (tied_params : List (List String)) (d : Device)
    (hsingle : (dev_values dm).dedup.length = 1)
    (hq : quant_forces_hooks env m = false)
    (hhead : (dev_values dm).head? = some d)
    (hdn : d ≠ Device.disk)
    (hmeta : m.params.any (fun p => p.2 == Device.meta) = true) :
    ∃ o, dispatch_model env m dm main_arg offload_dir offload_index false
        tied_params = .ok o ∧
      (∀ p ∈ m.params, p.2 = Device.meta → (p.1, d) ∈ o.model.params) ∧
      (∀ b ∈ m.buffers, b.2 = Device.meta → (b.1, d) ∈ o.model.buffers) ∧
      (∀ p ∈ m.params, p.2 ≠ Device.meta → p ∈ o.model.params) ∧
      (∀ b ∈ m.buffers, b.2 ≠ Device.meta → b ∈ o.model.buffers) := by
  have hcond : ((dev_values dm).dedup.length > 1 ||
      (false || quant_forces_hooks env m)) = false := by
    simp [hsingle, hq]
  have hdb : (d == Device.disk) = false := by simp [hdn]
  unfold dispatch_model
  simp only [hcond, Bool.false_eq_true, if_false, hhead, hdb, hmeta, if_true]
  refine ⟨_, rfl, ?_, ?_, ?_, ?_⟩
  · intro p hp hp2
    exact List.mem_map.mpr ⟨p, hp, by simp [hp2]⟩
  · intro b hb hb2
    exact List.mem_map.mpr ⟨b, hb, by simp [hb2]⟩
  · intro p hp hp2
    exact List.mem_map.mpr ⟨p, hp, by simp [hp2]⟩
  · intro b hb hb2
    exact List.mem_map.mpr ⟨b, hb, by simp [hb2]⟩

/-- Witness for C7: the meta parameter `a` of `mMeta` is materialized onto
`acc 0` and the placed parameter `b` stays on cpu. -/
theorem c7_fast_path_meta_materialization_witness :
    ∃ o, dispatch_model {} mMeta [("", Device.acc 0)] none none none false []
        = .ok o ∧
      (∀ p ∈ mMeta.params, p.2 = Device.meta →
        (p.1, Device.acc 0) ∈ o.model.params) ∧
      (∀ b ∈ mMeta.buffers, b.2 = Device.meta →
        (b.1, Device.acc 0) ∈ o.model.buffers) ∧
      (∀ p ∈ mMeta.params, p.2 ≠ Device.meta → p ∈ o.model.params) ∧
      (∀ b ∈ mMeta.buffers, b.2 ≠ Device.meta → b ∈ o.model.buffers) :=
  c7_fast_path_meta_materialization {} mMeta [("", Device.acc 0)] none none
    none [] (Device.acc 0) (by decide) (by decide) (by decide) (by decide)
    (by decide)
